import Mathlib

/-!
Verification of the route53ddns reconciler (`main.go`) against its design
specification. Go strings are modelled as lists of byte values (`List Nat`);
fallible Go code returns `Option`/`Except`; a Go panic is modelled as `none`.
The Route53 client is modelled as a record of response functions, and the
reconciler additionally returns the list of provider calls it issued, so that
"issues no upsert" is a statement about the returned trace.
-/

namespace R53

/-- Go strings, as lists of byte values. -/
abbrev GoStr := List Nat

/-- Convenience: byte list of an ASCII Lean string literal (for concrete inputs). -/
def str (s : String) : GoStr := s.toList.map Char.toNat

/-! ## Hostname parser

`main.go` lines 29-30 and 115-116:
`domainRegex = regexp.MustCompile("^([^\x2E]*)\x2E(.*)$")`;
`tokens := domainRegex.FindStringSubmatch(fqdn); domain := tokens[2]`.

Go regexp semantics for this anchored pattern: group 1 is the maximal prefix
with no `.` (byte 46) — the class `[^\x2E]` matches any rune including
newline — then a literal `.`, then `(.*)` which must reach the end of the
text and cannot cross a newline (byte 10). So the match succeeds iff the
string contains a `.` and no newline occurs after the first `.`; on success
group 1 is everything before the first `.` and group 2 everything after it.
`FindStringSubmatch` returns nil when there is no match, and `tokens[2]`
then panics (index out of range), modelled as `none`. -/
def splitDomain (s : GoStr) : Option (GoStr × GoStr) :=
  let label := s.takeWhile (fun c => c != 46)
  match s.dropWhile (fun c => c != 46) with
  | 46 :: parent => if parent.contains 10 then none else some (label, parent)
  | _ => none

/-! ## IP parsing: Go `net.ParseIP` (Go 1.21, via `netip.ParseAddr`)

`net.ParseIP` returns a 16-byte address (IPv4 results are returned in
IPv4-in-IPv6 mapped form `::ffff:a.b.c.d`) or nil. Zoned addresses
(`...%zone`) are rejected by `net.ParseIP`; we model `%` as an ordinary
non-hex byte, which yields `none` on exactly the same inputs. -/

/-- `netip.parseIPv4Fields`: one pass over the bytes with a current field
value `val`, digit count `digLen` for the current field, and completed
`fields`. Mirrors the Go loop: a digit extends the field (rejecting a
leading zero and values above 255); a dot closes a field (rejecting an
empty field, a dot in final position, and a fifth field); any other byte is
rejected. At end of input there must be exactly three completed fields,
and `val` becomes the fourth. -/
def parseV4Loop : List Nat → Nat → Nat → List Nat → Option (List Nat)
  | [], val, _, fields => if fields.length < 3 then none else some (fields ++ [val])
  | c :: s, val, digLen, fields =>
    if 48 ≤ c ∧ c ≤ 57 then
      if digLen = 1 ∧ val = 0 then none
      else
        let v := val * 10 + (c - 48)
        if 255 < v then none else parseV4Loop s v (digLen + 1) fields
    else if c = 46 then
      if digLen = 0 ∨ s = [] then none
      else if fields.length = 3 then none
      else parseV4Loop s 0 0 (fields ++ [val])
    else none

/-- The IPv4-mapped 16-byte form `::ffff:p.q.r.s` that `net.ParseIP`
produces for IPv4 input (`netip.AddrFrom4` followed by `As16`). -/
def mapped4 (p q r s : Nat) : List Nat :=
  [0, 0, 0, 0, 0, 0, 0, 0, 0, 0, 255, 255, p, q, r, s]

/-- `netip.parseIPv4` followed by `As16`. -/
def parseIPv4 (s : List Nat) : Option (List Nat) :=
  match parseV4Loop s 0 0 [] with
  | some [p, q, r, s4] => some (mapped4 p q r s4)
  | _ => none

def isHexDigit (c : Nat) : Bool :=
  (48 ≤ c ∧ c ≤ 57) ∨ (97 ≤ c ∧ c ≤ 102) ∨ (65 ≤ c ∧ c ≤ 70)

/-- Value of a hex digit byte: `c-'0'`, `c-'a'+10` or `c-'A'+10`. -/
def hexVal (c : Nat) : Nat :=
  if c ≤ 57 then c - 48 else if c ≤ 70 then c - 55 else c - 87

/-- The hex-accumulation loop at the head of each `parseIPv6` iteration:
consumes the maximal run of hex digits, returning the accumulated value,
the number of digits consumed (`off` in the Go code) and the rest. -/
def scanHex : List Nat → Nat → Nat → Nat × Nat × List Nat
  | [], acc, off => (acc, off, [])
  | c :: s, acc, off =>
    if isHexDigit c then scanHex s (acc * 16 + hexVal c) (off + 1) else (acc, off, c :: s)

/-- Main loop of `netip.parseIPv6`. `bytes` holds the bytes produced so far
(Go's `ip[:i]`), `ell` the ellipsis position if a `::` has been seen. The
`fuel` argument only bounds the number of loop iterations: the Go loop runs
while `i < 16` and each iteration adds at least two bytes, so at most 8
iterations occur and the fuel-exhaustion branch is unreachable from
`parseIPv6` (which supplies fuel 8). Returns the bytes, the ellipsis and
the unconsumed rest of the input at loop exit. Error returns inside the Go
loop are `none`:
field with no digits; field with more than 4 digits; misplaced or
ill-formed embedded IPv4; a lone trailing colon; a second `::`; a
non-colon byte after a field. -/
def parseV6Loop : Nat → List Nat → List Nat → Option Nat →
    Option (List Nat × Option Nat × List Nat)
  | 0, s, bytes, ell =>
    if 16 ≤ bytes.length then some (bytes, ell, s) else none
  | fuel + 1, s, bytes, ell =>
    if 16 ≤ bytes.length then some (bytes, ell, s)
    else
      match scanHex s 0 0 with
      | (acc, off, rest) =>
        if off = 0 then none
        else if 4 < off then none
        else if rest.head? = some 46 then
          if ell = none ∧ bytes.length ≠ 12 then none
          else if 16 < bytes.length + 4 then none
          else
            match parseV4Loop s 0 0 [] with
            | some [p, q, r, s4] => some (bytes ++ [p, q, r, s4], ell, [])
            | _ => none
        else if rest = [] then some (bytes ++ [acc / 256, acc % 256], ell, [])
        else if rest.head? ≠ some 58 then none
        else if rest.length = 1 then none
        else if rest.tail.head? = some 58 then
          if ell.isSome then none
          else if rest.tail.tail = [] then
            some (bytes ++ [acc / 256, acc % 256], some (bytes.length + 2), [])
          else parseV6Loop fuel rest.tail.tail (bytes ++ [acc / 256, acc % 256])
            (some (bytes.length + 2))
        else parseV6Loop fuel rest.tail (bytes ++ [acc / 256, acc % 256]) ell

/-- Post-loop processing of `netip.parseIPv6`: reject unconsumed input
("trailing garbage"); if fewer than 16 bytes were produced, require an
ellipsis and expand it with zeros (the Go code shifts `ip[ellipsis:i]` to
the end and zero-fills the middle); if all 16 bytes were produced, reject
a `::` that expanded to nothing. -/
def v6Finish (bytes : List Nat) (ell : Option Nat) (rest : List Nat) : Option (List Nat) :=
  if rest ≠ [] then none
  else if bytes.length < 16 then
    match ell with
    | none => none
    | some e => some (bytes.take e ++ List.replicate (16 - bytes.length) 0 ++ bytes.drop e)
  else if ell.isSome then none
  else some bytes

/-- `netip.parseIPv6`: a leading `::` sets the ellipsis before the loop
(and `::` alone is the unspecified address), then the main loop and the
post-processing run. -/
def parseIPv6 (s : List Nat) : Option (List Nat) :=
  if s.take 2 = [58, 58] then
    if s.drop 2 = [] then some (List.replicate 16 0)
    else
      match parseV6Loop 8 (s.drop 2) [] (some 0) with
      | none => none
      | some (bytes, ell, rest) => v6Finish bytes ell rest
  else
    match parseV6Loop 8 s [] none with
    | none => none
    | some (bytes, ell, rest) => v6Finish bytes ell rest

/-- `net.ParseIP` (Go 1.21): scan for the first `.`, `:` or `%`; a dot
selects the IPv4 parser, a colon the IPv6 parser, and a `%` first or no
special byte at all is an error. -/
def parseIP (s : List Nat) : Option (List Nat) :=
  match s.find? (fun c => c == 46 || c == 58 || c == 37) with
  | some 46 => parseIPv4 s
  | some 58 => parseIPv6 s
  | _ => none

/-! ## IP printing: Go `net.IP.String`

For the 16-byte addresses `net.ParseIP` produces: addresses with the
IPv4-mapped form print as a dotted quad (`To4` succeeds); all others print
in RFC 5952 IPv6 form (lowercase minimal hex groups, the leftmost longest
run of two or more zero groups compressed to `::`). -/

/-- `netip` `appendDecimal`: minimal decimal digits of a byte. -/
def decByte (x : Nat) : List Nat :=
  (if 100 ≤ x then [48 + x / 100] else []) ++
    (if 10 ≤ x then [48 + x / 10 % 10] else []) ++ [48 + x % 10]

/-- Lowercase hex digit byte for a value below 16. -/
def hexDigitChar (d : Nat) : Nat := if d < 10 then 48 + d else 87 + d

/-- `netip` `appendHexUint16`: minimal lowercase hex digits of a 16-bit group. -/
def hexU16 (x : Nat) : List Nat :=
  (if 4096 ≤ x then [hexDigitChar (x / 4096)] else []) ++
    (if 256 ≤ x then [hexDigitChar (x / 256 % 16)] else []) ++
      (if 16 ≤ x then [hexDigitChar (x / 16 % 16)] else []) ++ [hexDigitChar (x % 16)]

/-- `net.IP.To4` on a 16-byte address: the final four bytes when the first
ten are zero and bytes 10 and 11 are `0xff`. -/
def to4 (a : List Nat) : Option (Nat × Nat × Nat × Nat) :=
  if a.length = 16 ∧ a.take 12 = [0, 0, 0, 0, 0, 0, 0, 0, 0, 0, 255, 255] then
    some (a.getD 12 0, a.getD 13 0, a.getD 14 0, a.getD 15 0)
  else none

/-- The eight 16-bit groups of a 16-byte address (Go's `v6u16`). -/
def toGroups : List Nat → List Nat
  | b0 :: b1 :: t => (b0 * 256 + b1) :: toGroups t
  | _ => []

/-- Number of leading zero groups. -/
def zeroRunLen : List Nat → Nat
  | 0 :: t => zeroRunLen t + 1
  | _ => 0

/-- Scan of `netip` `appendTo6` that finds the zero run to elide: at each
index take the zero run starting there; it becomes the candidate if it has
length at least 2 and is strictly longer than the best so far (so the
leftmost longest run of length ≥ 2 wins, as in the Go code). -/
def bestZeroRunAux : List Nat → Nat → Option (Nat × Nat) → Option (Nat × Nat)
  | [], _, best => best
  | g :: t, i, best =>
    let l := zeroRunLen (g :: t)
    let bl := match best with | some (_, r) => r | none => 0
    bestZeroRunAux t (i + 1) (if 2 ≤ l ∧ bl < l then some (i, l) else best)

def bestZeroRun (gs : List Nat) : Option (Nat × Nat) := bestZeroRunAux gs 0 none

/-- Groups joined by `:` (byte 58). -/
def intercalateColon : List (List Nat) → List Nat
  | [] => []
  | [g] => g
  | g :: t => g ++ 58 :: intercalateColon t

/-- IPv6 branch of `net.IP.String` (`netip.appendTo6`): print all groups
separated by colons; if a zero run was selected, the groups of the run are
replaced by `::` (the Go loop appends `::` at the run start, jumps past the
run, and continues without a further separator). -/
def v6String (gs : List Nat) : List Nat :=
  match bestZeroRun gs with
  | none => intercalateColon (gs.map hexU16)
  | some (p, l) =>
    intercalateColon ((gs.take p).map hexU16) ++ 58 :: 58 ::
      intercalateColon ((gs.drop (p + l)).map hexU16)

/-- `net.IP.String` on the 16-byte addresses produced by `net.ParseIP`. -/
def ipString (a : List Nat) : List Nat :=
  match to4 a with
  | some (p, q, r, s) => decByte p ++ 46 :: decByte q ++ 46 :: decByte r ++ 46 :: decByte s
  | none => v6String (toGroups a)

/-! ## IP resolver: `getIP` (`main.go` lines 85-111)

The HTTP fetch is an external collaborator; its outcome (transport error,
or the response body) is the argument. The body has a single trailing
newline trimmed (`strings.TrimSuffix(string(body), "\n")`), is parsed with
`net.ParseIP`, and on success `ip.String()` — the canonical rendering —
is returned. -/

/-- `strings.TrimSuffix(s, "\n")`: drop the last byte iff it is a newline. -/
def trimSuffixNewline (s : GoStr) : GoStr :=
  if s.getLast? = some 10 then s.dropLast else s

inductive GetIPError
  | transport (msg : GoStr)
  | invalidAddress
deriving DecidableEq

def getIP (fetch : Except GoStr GoStr) : Except GetIPError GoStr :=
  match fetch with
  | .error e => .error (.transport e)
  | .ok body =>
    match parseIP (trimSuffixNewline body) with
    | none => .error .invalidAddress
    | some ip => .ok (ipString ip)

/-! ## Route53 reconciler: `upsertRoute53Record` (`main.go` lines 113-202) -/

structure HostedZone where
  id : GoStr
  name : GoStr
deriving DecidableEq

structure ListZonesOutput where
  dnsName : GoStr
  hostedZones : List HostedZone
deriving DecidableEq

structure ResourceRecord where
  value : GoStr
deriving DecidableEq

structure ResourceRecordSet where
  name : GoStr
  rrType : GoStr
  resourceRecords : List ResourceRecord
  ttl : Nat
deriving DecidableEq

structure ListRecordsOutput where
  resourceRecordSets : List ResourceRecordSet
deriving DecidableEq

structure Change where
  action : GoStr
  resourceRecordSet : ResourceRecordSet
deriving DecidableEq

structure ChangeRecordSetsInput where
  changes : List Change
  hostedZoneId : GoStr
deriving DecidableEq

/-- One provider API call, with the request data the Go code sends. -/
inductive ProviderCall
  | listZones (dnsName maxItems : GoStr)
  | listRecords (startName startType zoneId maxItems : GoStr)
  | changeRecords (input : ChangeRecordSetsInput)
deriving DecidableEq

/-- The Route53 client, modelled by its responses to the three calls the
reconciler makes. -/
structure Route53 where
  listHostedZonesByName : GoStr → GoStr → Except GoStr ListZonesOutput
  listResourceRecordSets : GoStr → GoStr → GoStr → GoStr → Except GoStr ListRecordsOutput
  changeResourceRecordSets : ChangeRecordSetsInput → Except GoStr Unit

/-- One constructor per `return err` site of `upsertRoute53Record`. -/
inductive UpsertError
  | listZonesFailed (e : GoStr)
  | zoneNotFound (domain : GoStr)
  | zoneMismatch (domain got : GoStr)
  | listRecordsFailed (domain : GoStr) (e : GoStr)
  | changeFailed (e : GoStr)
deriving DecidableEq

/-- Outcome of `upsertRoute53Record`: an error return, the nil return after
the "already registered in route53" log line, or the nil return after the
"submitted change" log line. -/
inductive UpsertResult
  | failed (e : UpsertError)
  | alreadyRegistered
  | updated
deriving DecidableEq

/-- `strings.Split(s, "/")` (always returns at least one piece). -/
def goSplitSlash : GoStr → List GoStr
  | [] => [[]]
  | c :: t =>
    if c = 47 then [] :: goSplitSlash t
    else
      match goSplitSlash t with
      | h :: r => (c :: h) :: r
      | [] => [[c]]

def recordTypeA : GoStr := [65]
def maxItemsOne : GoStr := [49]
def dotS : GoStr := [46]
def upsertActionS : GoStr := str "UPSERT"

/-- `upsertRoute53Record(ip, fqdn, dnsClient)`. Returns `none` for the
panic at `tokens[2]` when the hostname regex does not match; otherwise the
result together with the trace of provider calls issued. Mirrors
`main.go` lines 113-202 step by step. -/
def upsertRoute53Record (ip fqdn : GoStr) (dnsClient : Route53) :
    Option (UpsertResult × List ProviderCall) :=
  match splitDomain fqdn with
  | none => none
  | some (_, domain) =>
    let zonesCall := ProviderCall.listZones (domain ++ dotS) maxItemsOne
    match dnsClient.listHostedZonesByName (domain ++ dotS) maxItemsOne with
    | .error e => some (.failed (.listZonesFailed e), [zonesCall])
    | .ok resources =>
      if resources.hostedZones.length ≠ 1 then
        some (.failed (.zoneNotFound domain), [zonesCall])
      else if resources.dnsName ≠ domain ++ dotS then
        some (.failed (.zoneMismatch domain resources.dnsName), [zonesCall])
      else
        let zoneID := (goSplitSlash (resources.hostedZones.headD ⟨[], []⟩).id).getLastD []
        let recordsCall := ProviderCall.listRecords fqdn recordTypeA zoneID maxItemsOne
        match dnsClient.listResourceRecordSets fqdn recordTypeA zoneID maxItemsOne with
        | .error e => some (.failed (.listRecordsFailed domain e), [zonesCall, recordsCall])
        | .ok resp =>
          let already : Bool :=
            match resp.resourceRecordSets with
            | [rs] => rs.name == fqdn ++ dotS && rs.resourceRecords.any (fun r => r.value == ip)
            | _ => false
          if already then some (.alreadyRegistered, [zonesCall, recordsCall])
          else
            let rrs : ResourceRecordSet :=
              { name := fqdn ++ dotS, rrType := [65], resourceRecords := [⟨ip⟩], ttl := 300 }
            let params : ChangeRecordSetsInput :=
              { changes := [⟨upsertActionS, rrs⟩], hostedZoneId := zoneID }
            let changeCall := ProviderCall.changeRecords params
            match dnsClient.changeResourceRecordSets params with
            | .error e =>
              some (.failed (.changeFailed e), [zonesCall, recordsCall, changeCall])
            | .ok _ => some (.updated, [zonesCall, recordsCall, changeCall])

/-- Error of one reconciliation cycle, wrapped with the phase context the
entry point adds ("unable to determine ip address", "could not update
record"). -/
inductive CycleError
  | ipPhase (e : GetIPError)
  | updatePhase (e : UpsertError)
deriving DecidableEq

/-- `getIPAndUpdate` (`main.go` lines 70-83): the reconciliation entry
point the scheduler invokes. `none` models a panic escaping the function. -/
def getIPAndUpdate (fetch : Except GoStr GoStr) (fqdn : GoStr) (dnsClient : Route53) :
    Option (Except CycleError UpsertResult × List ProviderCall) :=
  match getIP fetch with
  | .error e => some (.error (.ipPhase e), [])
  | .ok ip =>
    match upsertRoute53Record ip fqdn dnsClient with
    | none => none
    | some (.failed e, tr) => some (.error (.updatePhase e), tr)
    | some (r, tr) => some (.ok r, tr)

/-- Bytes of a group list (left inverse of `toGroups`; proof helper). -/
def fromGroups : List Nat → List Nat
  | [] => []
  | g :: t => g / 256 :: g % 256 :: fromGroups t

/-- The change-batch input the update path builds (`main.go` lines 166-190):
one UPSERT change for an `A` record named `fqdn+"."` with the single value
`ip` and TTL 300, scoped to zone id `zid`. -/
def upsertParams (ip fqdn zid : GoStr) : ChangeRecordSetsInput :=
  { changes := [⟨upsertActionS, ⟨fqdn ++ dotS, [65], [⟨ip⟩], 300⟩⟩], hostedZoneId := zid }

/-- Client for the C1 counterexample: the zone lookup returns exactly one
candidate zone whose own name is `wrong.example.com.`, while the output's
`DNSName` field echoes `example.com.`. -/
def c1Client : Route53 :=
  { listHostedZonesByName := fun _ _ =>
      .ok ⟨str "example.com.", [⟨str "/hostedzone/Z123", str "wrong.example.com."⟩]⟩
    listResourceRecordSets := fun _ _ _ _ => .ok ⟨[]⟩
    changeResourceRecordSets := fun _ => .ok () }

/-- Client for the C1 witness: the lookup's `DNSName` output field differs
from the queried name. -/
def c1WClient : Route53 :=
  { listHostedZonesByName := fun _ _ =>
      .ok ⟨str "near.example.com.", [⟨str "/hostedzone/Z9", str "near.example.com."⟩]⟩
    listResourceRecordSets := fun _ _ _ _ => .ok ⟨[]⟩
    changeResourceRecordSets := fun _ => .ok () }

/-- Client for the C5 witness: the record listing already holds the
observed address. -/
def c5Client : Route53 :=
  { listHostedZonesByName := fun _ _ =>
      .ok ⟨str "example.com.", [⟨str "/hostedzone/Z123", str "example.com."⟩]⟩
    listResourceRecordSets := fun _ _ _ _ =>
      .ok ⟨[⟨str "home.example.com.", [65], [⟨str "203.0.113.9"⟩], 300⟩]⟩
    changeResourceRecordSets := fun _ => .ok () }

/-- Client for the C6 witness: the record exists with a stale value
(the scenario of spec section 8). -/
def c6Client : Route53 :=
  { listHostedZonesByName := fun _ _ =>
      .ok ⟨str "example.com.", [⟨str "/hostedzone/Z123", str "example.com."⟩]⟩
    listResourceRecordSets := fun _ _ _ _ =>
      .ok ⟨[⟨str "home.example.com.", [65], [⟨str "203.0.113.1"⟩], 300⟩]⟩
    changeResourceRecordSets := fun _ => .ok () }

/-- Client for the C8 witness: the zone lookup returns no candidates. -/
def c8Client : Route53 :=
  { listHostedZonesByName := fun _ _ => .ok ⟨str "example.com.", []⟩
    listResourceRecordSets := fun _ _ _ _ => .ok ⟨[]⟩
    changeResourceRecordSets := fun _ => .ok () }

example : parseIP (str "1.2.3.4") = some (mapped4 1 2 3 4) := by decide
example : ipString (mapped4 203 0 113 9) = str "203.0.113.9" := by decide
example : parseIP (str "2001:DB8::1") =
    some [32, 1, 13, 184, 0, 0, 0, 0, 0, 0, 0, 0, 0, 0, 0, 1] := by decide
example : ipString [32, 1, 13, 184, 0, 0, 0, 0, 0, 0, 0, 0, 0, 0, 0, 1] =
    str "2001:db8::1" := by decide
example : parseIP (str "::ffff:1.2.3.4") = some (mapped4 1 2 3 4) := by decide
example : parseIP (str "1.2.3.256") = none := by decide
example : parseIP (str "01.2.3.4") = none := by decide
example : parseIP (str "hello") = none := by decide
example : parseIP (str "::") = some (List.replicate 16 0) := by decide
example : ipString (List.replicate 16 0) = str "::" := by decide
example : parseIP (str "1:2:3:4:5:6:7:8") =
    some [0, 1, 0, 2, 0, 3, 0, 4, 0, 5, 0, 6, 0, 7, 0, 8] := by decide
example : splitDomain (str "home.example.com") = some (str "home", str "example.com") := by
  decide
example : splitDomain (str "localhost") = none := by decide

/-! ## Helper lemmas: the hostname split -/

theorem splitDomain_spec (s label parent : GoStr)
    (h : splitDomain s = some (label, parent)) :
    label ++ 46 :: parent = s ∧ 46 ∉ label := by
  unfold splitDomain at h
  split at h
  case _ parent' heq =>
    split at h
    · exact absurd h (by simp)
    · rw [Option.some_inj, Prod.mk.injEq] at h
      obtain ⟨hl, hp⟩ := h
      subst hl; subst hp
      constructor
      · have := List.takeWhile_append_dropWhile (p := fun c => c != 46) (l := s)
        rw [heq] at this
        exact this
      · intro hmem
        have := List.mem_takeWhile_imp hmem
        simp at this
  case _ => exact absurd h (by simp)

theorem dropWhile_cons_head (p : Nat → Bool) :
    ∀ (l : List Nat) (c : Nat) (t : List Nat), l.dropWhile p = c :: t → p c = false := by
  intro l
  induction l with
  | nil => intro c t h; simp [List.dropWhile] at h
  | cons a l ih =>
    intro c t h
    rw [List.dropWhile_cons] at h
    split at h
    · exact ih _ _ h
    · next hp =>
      injection h with h1 _
      subst h1
      exact Bool.eq_false_iff.mpr hp

theorem splitDomain_of_mem (s : GoStr) (h46 : 46 ∈ s) (h10 : 10 ∉ s) :
    ∃ label parent, splitDomain s = some (label, parent) := by
  have hne : s.dropWhile (fun c => c != 46) ≠ [] := by
    intro hnil
    rw [List.dropWhile_eq_nil_iff] at hnil
    have := hnil _ h46
    simp at this
  cases heq : s.dropWhile (fun c => c != 46) with
  | nil => exact absurd heq hne
  | cons c t =>
    have hc : c = 46 := by
      have := dropWhile_cons_head (fun c => c != 46) s c t heq
      simpa using this
    subst hc
    have ht : 10 ∉ t := by
      intro hmem
      apply h10
      have hsub : List.Sublist (46 :: t) s := heq ▸ List.dropWhile_sublist _
      exact hsub.subset (List.mem_cons_of_mem _ hmem)
    refine ⟨s.takeWhile (fun c => c != 46), t, ?_⟩
    unfold splitDomain
    rw [heq]
    simp [ht]

/-! ## Claim theorems -/

/-- Claim C2 (code bug evidence): for a hostname with no separator the
hostname-splitting step does not return an error — `FindStringSubmatch`
returns nil and `tokens[2]` panics (modelled `none`), for every observed
address and every provider. -/
theorem claim_c2_theorem (ip : GoStr) (dnsClient : Route53) :
    upsertRoute53Record ip (str "localhost") dnsClient = none := by
  have h : splitDomain (str "localhost") = none := by decide
  unfold upsertRoute53Record
  rw [h]

/-- Claim C4 counterexample: the hostname `"."` contains a separator, yet
the split returns an empty leaf label and an empty parent domain, refuting
"returns a non-empty leaf label and a non-empty parent domain". -/
theorem claim_c4_counterexample :
    46 ∈ str "." ∧ splitDomain (str ".") = some ([], []) := by decide

/-- Claim C4 (amended): for every hostname containing at least one
separator (and no newline byte, which Go's `(.*)$` cannot cross), the
split succeeds, the label — everything before the first separator — and
the parent satisfy `label ++ "." ++ parent = fqdn`, and the label contains
no separator (so the split is at the first separator); label and parent
may be empty. -/
theorem claim_c4_theorem (s : GoStr) (h46 : 46 ∈ s) (h10 : 10 ∉ s) :
    ∃ label parent, splitDomain s = some (label, parent) ∧
      label ++ 46 :: parent = s ∧ 46 ∉ label := by
  obtain ⟨label, parent, heq⟩ := splitDomain_of_mem s h46 h10
  obtain ⟨happ, hnot⟩ := splitDomain_spec s label parent heq
  exact ⟨label, parent, heq, happ, hnot⟩

/-- Witness for C4 at a concrete hostname. -/
theorem claim_c4_witness :
    ∃ label parent, splitDomain (str "home.example.com") = some (label, parent) ∧
      label ++ 46 :: parent = str "home.example.com" ∧ 46 ∉ label :=
  claim_c4_theorem (str "home.example.com") (by decide) (by decide)

/-- Claim C7 (code bug evidence): a reconciliation cycle whose hostname
has no separator does not have its failure caught and logged — the cycle
panics out of `getIPAndUpdate` (modelled `none`), for every provider; the
scheduler installs no recover, so the process crashes. -/
theorem claim_c7_theorem (dnsClient : Route53) :
    getIPAndUpdate (.ok (str "1.2.3.4\n")) (str "localhost") dnsClient = none := by
  have hip : getIP (.ok (str "1.2.3.4\n")) = .ok (str "1.2.3.4") := by rfl
  have hsplit : splitDomain (str "localhost") = none := by decide
  unfold getIPAndUpdate
  rw [hip]
  unfold upsertRoute53Record
  rw [hsplit]

/-- Claim C8: whenever the zone lookup succeeds but returns zero or more
than one hosted zone, reconcile fails with the "could not find domain"
error and the trace holds only the zone-lookup call: no record listing and
no upsert were issued. -/
theorem claim_c8_theorem (ip fqdn label domain : GoStr) (dnsClient : Route53)
    (out : ListZonesOutput)
    (hsplit : splitDomain fqdn = some (label, domain))
    (hresp : dnsClient.listHostedZonesByName (domain ++ dotS) maxItemsOne = .ok out)
    (hlen : out.hostedZones.length ≠ 1) :
    upsertRoute53Record ip fqdn dnsClient =
      some (.failed (.zoneNotFound domain),
        [.listZones (domain ++ dotS) maxItemsOne]) := by
  simp only [upsertRoute53Record, hsplit, hresp]
  simp [hlen]

/-- Witness for C8: a provider with no hosted zones. -/
theorem claim_c8_witness :
    upsertRoute53Record (str "203.0.113.9") (str "home.example.com") c8Client =
      some (.failed (.zoneNotFound (str "example.com")),
        [.listZones (str "example.com" ++ dotS) maxItemsOne]) :=
  claim_c8_theorem (str "203.0.113.9") (str "home.example.com")
    (str "home") (str "example.com") c8Client ⟨str "example.com.", []⟩
    (by decide) rfl (by decide)

/-- Claim C1 counterexample: a provider whose lookup returns exactly one
candidate zone whose own name (`wrong.example.com.`) differs from
`parentDomain ++ "."`, but whose output `DNSName` field echoes the query.
Reconcile does not fail with the mismatch error: it proceeds and issues
the upsert, because line 132 of `main.go` compares `resources.DNSName`
(the echoed query field), never `HostedZones[0].Name`. -/
theorem claim_c1_counterexample :
    str "wrong.example.com." ≠ str "example.com" ++ dotS ∧
    upsertRoute53Record (str "203.0.113.9") (str "home.example.com") c1Client =
      some (.updated,
        [.listZones (str "example.com.") maxItemsOne,
         .listRecords (str "home.example.com") recordTypeA (str "Z123") maxItemsOne,
         .changeRecords (upsertParams (str "203.0.113.9") (str "home.example.com")
            (str "Z123"))]) := by decide

/-- Claim C1 (amended): the mismatch guard tests the lookup output's
`DNSName` field, not the candidate zone's own name: whenever the lookup
returns exactly one candidate but its `DNSName` field differs from
`parentDomain ++ "."`, reconcile fails with the zone-mismatch error and
issues no record listing and no upsert. -/
theorem claim_c1_theorem (ip fqdn label domain : GoStr) (dnsClient : Route53)
    (out : ListZonesOutput)
    (hsplit : splitDomain fqdn = some (label, domain))
    (hresp : dnsClient.listHostedZonesByName (domain ++ dotS) maxItemsOne = .ok out)
    (hlen : out.hostedZones.length = 1)
    (hname : out.dnsName ≠ domain ++ dotS) :
    upsertRoute53Record ip fqdn dnsClient =
      some (.failed (.zoneMismatch domain out.dnsName),
        [.listZones (domain ++ dotS) maxItemsOne]) := by
  simp only [upsertRoute53Record, hsplit, hresp]
  simp [hlen, hname]

/-- Witness for C1 at a concrete mismatching provider. -/
theorem claim_c1_witness :
    upsertRoute53Record (str "203.0.113.9") (str "home.example.com") c1WClient =
      some (.failed (.zoneMismatch (str "example.com") (str "near.example.com.")),
        [.listZones (str "example.com" ++ dotS) maxItemsOne]) :=
  claim_c1_theorem (str "203.0.113.9") (str "home.example.com")
    (str "home") (str "example.com") c1WClient
    ⟨str "near.example.com.", [⟨str "/hostedzone/Z9", str "near.example.com."⟩]⟩
    (by decide) rfl (by decide) (by decide)

/-- Claim C5 (idempotence): when the zone is located and the record
listing returns one record named `fqdn ++ "."` one of whose values equals
the observed address, reconcile returns the already-registered outcome and
the trace holds no change-batch submission. -/
theorem claim_c5_theorem (ip fqdn label domain zid : GoStr) (dnsClient : Route53)
    (zone : HostedZone) (rs : ResourceRecordSet)
    (hsplit : splitDomain fqdn = some (label, domain))
    (hzones : dnsClient.listHostedZonesByName (domain ++ dotS) maxItemsOne =
      .ok ⟨domain ++ dotS, [zone]⟩)
    (hzid : zid = (goSplitSlash zone.id).getLastD [])
    (hrecs : dnsClient.listResourceRecordSets fqdn recordTypeA zid maxItemsOne = .ok ⟨[rs]⟩)
    (hname : rs.name = fqdn ++ dotS)
    (hval : ∃ r ∈ rs.resourceRecords, r.value = ip) :
    upsertRoute53Record ip fqdn dnsClient =
      some (.alreadyRegistered,
        [.listZones (domain ++ dotS) maxItemsOne,
         .listRecords fqdn recordTypeA zid maxItemsOne]) := by
  obtain ⟨r, hr, hrv⟩ := hval
  have hany : rs.resourceRecords.any (fun r => r.value == ip) = true := by
    rw [List.any_eq_true]
    exact ⟨r, hr, by simp [hrv]⟩
  subst hzid
  simp only [List.getLastD_eq_getLast?] at hrecs
  simp only [upsertRoute53Record, hsplit, hzones]
  simp [hrecs, hname, hany]

/-- Witness for C5: the scenario of spec section 8 with the record already
holding the observed address. -/
theorem claim_c5_witness :
    upsertRoute53Record (str "203.0.113.9") (str "home.example.com") c5Client =
      some (.alreadyRegistered,
        [.listZones (str "example.com" ++ dotS) maxItemsOne,
         .listRecords (str "home.example.com") recordTypeA (str "Z123") maxItemsOne]) :=
  claim_c5_theorem (str "203.0.113.9") (str "home.example.com")
    (str "home") (str "example.com") (str "Z123") c5Client
    ⟨str "/hostedzone/Z123", str "example.com."⟩
    ⟨str "home.example.com.", [65], [⟨str "203.0.113.9"⟩], 300⟩
    (by decide) rfl (by decide) rfl (by decide)
    ⟨⟨str "203.0.113.9"⟩, by decide, rfl⟩

/-- Claim C6 (update path): when the zone is located and the record
listing returns zero records, a record with a different name, or a
matching record none of whose values equals the observed address, and the
provider accepts the change, reconcile issues exactly one change-batch
call — one UPSERT of an `A` record named `fqdn ++ "."` with the single
value `ip` and TTL 300, scoped to the final slash-delimited segment of the
zone id — and returns the updated outcome. -/
theorem claim_c6_theorem (ip fqdn label domain zid : GoStr) (dnsClient : Route53)
    (zone : HostedZone) (resp : ListRecordsOutput)
    (hsplit : splitDomain fqdn = some (label, domain))
    (hzones : dnsClient.listHostedZonesByName (domain ++ dotS) maxItemsOne =
      .ok ⟨domain ++ dotS, [zone]⟩)
    (hzid : zid = (goSplitSlash zone.id).getLastD [])
    (hrecs : dnsClient.listResourceRecordSets fqdn recordTypeA zid maxItemsOne = .ok resp)
    (hmiss : resp.resourceRecordSets = [] ∨
      (∃ rs, resp.resourceRecordSets = [rs] ∧ rs.name ≠ fqdn ++ dotS) ∨
      (∃ rs, resp.resourceRecordSets = [rs] ∧ rs.name = fqdn ++ dotS ∧
        ∀ r ∈ rs.resourceRecords, r.value ≠ ip))
    (hchange : dnsClient.changeResourceRecordSets (upsertParams ip fqdn zid) = .ok ()) :
    upsertRoute53Record ip fqdn dnsClient =
      some (.updated,
        [.listZones (domain ++ dotS) maxItemsOne,
         .listRecords fqdn recordTypeA zid maxItemsOne,
         .changeRecords (upsertParams ip fqdn zid)]) := by
  subst hzid
  simp only [upsertParams] at hchange ⊢
  simp only [List.getLastD_eq_getLast?] at hrecs hchange ⊢
  rcases hmiss with h0 | ⟨rs, h1, hne⟩ | ⟨rs, h1, hnm, hnone⟩
  · simp only [upsertRoute53Record, hsplit, hzones]
    simp [hrecs, h0, hchange]
  · simp only [upsertRoute53Record, hsplit, hzones]
    simp [hrecs, h1, hne, hchange]
  · have hany : rs.resourceRecords.any (fun r => r.value == ip) = false := by
      rw [List.any_eq_false]
      intro r hr
      simp [hnone r hr]
    simp only [upsertRoute53Record, hsplit, hzones]
    simp [hrecs, h1, hnm, hany, hchange]

/-- Witness for C6: the update scenario of spec section 8 (stale value
`203.0.113.1`, observed `203.0.113.9`, zone id `/hostedzone/Z123`). -/
theorem claim_c6_witness :
    upsertRoute53Record (str "203.0.113.9") (str "home.example.com") c6Client =
      some (.updated,
        [.listZones (str "example.com" ++ dotS) maxItemsOne,
         .listRecords (str "home.example.com") recordTypeA (str "Z123") maxItemsOne,
         .changeRecords (upsertParams (str "203.0.113.9") (str "home.example.com")
           (str "Z123"))]) :=
  claim_c6_theorem (str "203.0.113.9") (str "home.example.com")
    (str "home") (str "example.com") (str "Z123") c6Client
    ⟨str "/hostedzone/Z123", str "example.com."⟩
    ⟨[⟨str "home.example.com.", [65], [⟨str "203.0.113.1"⟩], 300⟩]⟩
    (by decide) rfl (by decide) rfl
    (Or.inr (Or.inr ⟨⟨str "home.example.com.", [65], [⟨str "203.0.113.1"⟩], 300⟩,
      rfl, rfl, by decide⟩))
    rfl

/-- Claim C9: whenever the trimmed response body does not parse as an IP
address, `getIP` fails with the invalid-address error and returns no
address. -/
theorem claim_c9_theorem (body : GoStr)
    (h : parseIP (trimSuffixNewline body) = none) :
    getIP (.ok body) = .error .invalidAddress := by
  simp only [getIP, h]

/-- Witness for C9 at a non-address body. -/
theorem claim_c9_witness :
    getIP (.ok (str "<html>error</html>")) = .error .invalidAddress :=
  claim_c9_theorem (str "<html>error</html>") (by decide)

/-- Claim C3 counterexample: the body `"2001:DB8::1\n"` is valid IPv6 text
followed by one newline, but `getIP` does not return the trimmed text
verbatim: it returns the canonical rendering `"2001:db8::1"` (lowercased
and recompressed by `ip.String()`). -/
theorem claim_c3_counterexample :
    parseIP (trimSuffixNewline (str "2001:DB8::1\n")) ≠ none ∧
    getIP (.ok (str "2001:DB8::1\n")) ≠ .ok (trimSuffixNewline (str "2001:DB8::1\n")) ∧
    getIP (.ok (str "2001:DB8::1\n")) = .ok (str "2001:db8::1") := by
  refine ⟨by decide, ?_, by rfl⟩
  intro h
  have : str "2001:db8::1" = trimSuffixNewline (str "2001:DB8::1\n") := by
    have h2 : getIP (.ok (str "2001:DB8::1\n")) = .ok (str "2001:db8::1") := by rfl
    rw [h2] at h
    exact Except.ok.inj h
  exact absurd this (by decide)

/-- Claim C3 (amended): for every response body whose trimmed text parses
as an IP address, `getIP` succeeds and returns the canonical rendering of
the parsed address; when the trimmed text is already canonical, the
returned string is exactly the trimmed input. -/
theorem claim_c3_theorem (body t a : GoStr)
    (ht : trimSuffixNewline body = t)
    (hp : parseIP t = some a)
    (hcanon : ipString a = t) :
    getIP (.ok body) = .ok t := by
  simp only [getIP, ht, hp, hcanon]

/-- Witness for C3 at a canonical IPv4 body with a trailing newline. -/
theorem claim_c3_witness :
    getIP (.ok (str "203.0.113.9\n")) = .ok (str "203.0.113.9") :=
  claim_c3_theorem (str "203.0.113.9\n") (str "203.0.113.9") (mapped4 203 0 113 9)
    (by decide) (by decide) (by decide)

/-! ## Round trip of the IP printer and parser (claim C10)

The development below proves that printing any 16-byte address with
`ipString` and re-parsing the text with `parseIP` recovers the same
address, and that every address `parseIP` produces is a 16-byte list of
byte values — together these give claim C10. -/

theorem decByte_eq_of_lt_ten (n : Nat) (h : n < 10) : decByte n = [48 + n] := by
  unfold decByte
  rw [if_neg (by omega), if_neg (by omega), Nat.mod_eq_of_lt h]
  rfl

theorem decByte_eq_of_two (n : Nat) (h1 : 10 ≤ n) (h2 : n < 100) :
    decByte n = [48 + n / 10, 48 + n % 10] := by
  unfold decByte
  rw [if_neg (by omega), if_pos h1]
  have : n / 10 % 10 = n / 10 := Nat.mod_eq_of_lt (by omega)
  rw [this]
  rfl

theorem decByte_eq_of_three (n : Nat) (h1 : 100 ≤ n) :
    decByte n = [48 + n / 100, 48 + n / 10 % 10, 48 + n % 10] := by
  unfold decByte
  rw [if_pos h1, if_pos (by omega)]
  rfl

theorem decByte_digits (n : Nat) (hn : n ≤ 255) :
    ∀ c ∈ decByte n, 48 ≤ c ∧ c ≤ 57 := by
  rcases Nat.lt_or_ge n 10 with h | h
  · rw [decByte_eq_of_lt_ten n h]
    intro c hc
    simp at hc
    omega
  rcases Nat.lt_or_ge n 100 with h2 | h2
  · rw [decByte_eq_of_two n h h2]
    intro c hc
    simp at hc
    have := Nat.div_le_self n 10
    have := Nat.mod_lt n (show 0 < 10 by omega)
    rcases hc with hc | hc <;> omega
  · rw [decByte_eq_of_three n h2]
    intro c hc
    simp at hc
    have h100 : n / 100 ≤ 2 := by omega
    have := Nat.mod_lt (n / 10) (show 0 < 10 by omega)
    have := Nat.mod_lt n (show 0 < 10 by omega)
    rcases hc with hc | hc | hc <;> omega

theorem decByte_ne_nil (n : Nat) : decByte n ≠ [] := by
  simp [decByte]

theorem parseV4_digit_step (c val digLen v : Nat) (fields : List Nat) (s : List Nat)
    (hc : 48 ≤ c ∧ c ≤ 57) (hlead : ¬(digLen = 1 ∧ val = 0))
    (hveq : val * 10 + (c - 48) = v) (hv : v ≤ 255) :
    parseV4Loop (c :: s) val digLen fields = parseV4Loop s v (digLen + 1) fields := by
  simp only [parseV4Loop]
  rw [if_pos hc, if_neg hlead, hveq, if_neg (by omega)]

theorem parseV4_dot_step (val digLen : Nat) (fields : List Nat) (s : List Nat)
    (hd : digLen ≠ 0) (hs : s ≠ []) (hf : fields.length ≠ 3) :
    parseV4Loop (46 :: s) val digLen fields = parseV4Loop s 0 0 (fields ++ [val]) := by
  simp only [parseV4Loop]
  rw [if_neg (by omega)]
  rw [if_pos trivial, if_neg (not_or.mpr ⟨hd, hs⟩), if_neg hf]

theorem parseV4_end (val digLen : Nat) (fields : List Nat) (hf : ¬ fields.length < 3) :
    parseV4Loop [] val digLen fields = some (fields ++ [val]) := by
  simp only [parseV4Loop]
  rw [if_neg hf]

theorem parseV4_field (n : Nat) (hn : n ≤ 255) (s : List Nat) (fields : List Nat) :
    ∃ d, d ≠ 0 ∧ parseV4Loop (decByte n ++ s) 0 0 fields = parseV4Loop s n d fields := by
  rcases Nat.lt_or_ge n 10 with h | h
  · refine ⟨1, by omega, ?_⟩
    rw [decByte_eq_of_lt_ten n h, List.singleton_append,
      parseV4_digit_step (48 + n) 0 0 n fields s (by omega) (by omega) (by omega) hn]
  rcases Nat.lt_or_ge n 100 with h2 | h2
  · refine ⟨2, by omega, ?_⟩
    have hd1 : n / 10 ≥ 1 := by omega
    rw [decByte_eq_of_two n h h2, List.cons_append, List.singleton_append,
      parseV4_digit_step (48 + n / 10) 0 0 (n / 10) fields _ (by omega) (by omega)
        (by omega) (by omega),
      parseV4_digit_step (48 + n % 10) (n / 10) 1 n fields s
        (by have := Nat.mod_lt n (show 0 < 10 by omega); omega)
        (by omega) (by omega) hn]
  · refine ⟨3, by omega, ?_⟩
    have hd1 : n / 100 ≥ 1 := by omega
    have hm10 : n % 10 < 10 := Nat.mod_lt n (by omega)
    have hm100 : n / 10 % 10 < 10 := Nat.mod_lt (n / 10) (by omega)
    rw [decByte_eq_of_three n h2, List.cons_append, List.cons_append,
      List.singleton_append,
      parseV4_digit_step (48 + n / 100) 0 0 (n / 100) fields _ (by omega) (by omega)
        (by omega) (by omega),
      parseV4_digit_step (48 + n / 10 % 10) (n / 100) 1 (n / 10) fields _ (by omega)
        (by omega) (by omega) (by omega),
      parseV4_digit_step (48 + n % 10) (n / 10) 2 n fields s (by omega) (by omega)
        (by omega) hn]

theorem parseV4Loop_quad (p q r s4 : Nat)
    (hp : p ≤ 255) (hq : q ≤ 255) (hr : r ≤ 255) (hs : s4 ≤ 255) :
    parseV4Loop (decByte p ++ 46 :: (decByte q ++ 46 :: (decByte r ++ 46 :: decByte s4)))
      0 0 [] = some [p, q, r, s4] := by
  obtain ⟨d1, hd1, e1⟩ := parseV4_field p hp (46 :: (decByte q ++ 46 :: (decByte r ++ 46 :: decByte s4))) []
  rw [e1, parseV4_dot_step p d1 [] _ hd1 (by simp [decByte_ne_nil]) (by simp)]
  simp only [List.nil_append]
  obtain ⟨d2, hd2, e2⟩ := parseV4_field q hq (46 :: (decByte r ++ 46 :: decByte s4)) [p]
  rw [e2, parseV4_dot_step q d2 [p] _ hd2 (by simp [decByte_ne_nil]) (by simp)]
  simp only [List.singleton_append]
  obtain ⟨d3, hd3, e3⟩ := parseV4_field r hr (46 :: decByte s4) [p, q]
  rw [e3, parseV4_dot_step r d3 [p, q] _ hd3 (decByte_ne_nil s4) (by simp)]
  simp only [List.cons_append, List.singleton_append, List.nil_append]
  obtain ⟨d4, hd4, e4⟩ := parseV4_field s4 hs [] [p, q, r]
  rw [← List.append_nil (decByte s4), e4, parseV4_end s4 d4 [p, q, r] (by simp)]
  simp

theorem ipSpecial_digit_false (c : Nat) (h1 : 48 ≤ c) (h2 : c ≤ 57) :
    (c == 46 || c == 58 || c == 37) = false := by
  simp only [Bool.or_eq_false_iff, beq_eq_false_iff_ne, ne_eq]
  omega

theorem find?_v4_print (p q r s4 : Nat) (hp : p ≤ 255) :
    List.find? (fun c => c == 46 || c == 58 || c == 37)
      (decByte p ++ 46 :: (decByte q ++ 46 :: (decByte r ++ 46 :: decByte s4))) =
      some 46 := by
  rw [List.find?_append]
  have h1 : List.find? (fun c => c == 46 || c == 58 || c == 37) (decByte p) = none := by
    rw [List.find?_eq_none]
    intro x hx
    have hd := decByte_digits p hp x hx
    simp only [ipSpecial_digit_false x hd.1 hd.2]
    simp
  rw [h1, List.find?_cons_of_pos _ (by decide)]
  rfl

theorem parseIPv4_quad (p q r s4 : Nat)
    (hp : p ≤ 255) (hq : q ≤ 255) (hr : r ≤ 255) (hs : s4 ≤ 255) :
    parseIPv4 (decByte p ++ 46 :: (decByte q ++ 46 :: (decByte r ++ 46 :: decByte s4))) =
      some (mapped4 p q r s4) := by
  unfold parseIPv4
  rw [parseV4Loop_quad p q r s4 hp hq hr hs]

theorem to4_mapped4 (p q r s4 : Nat) : to4 (mapped4 p q r s4) = some (p, q, r, s4) := by
  unfold to4 mapped4
  rw [if_pos ⟨rfl, rfl⟩]
  rfl

theorem roundtrip_v4 (p q r s4 : Nat)
    (hp : p ≤ 255) (hq : q ≤ 255) (hr : r ≤ 255) (hs : s4 ≤ 255) :
    parseIP (ipString (mapped4 p q r s4)) = some (mapped4 p q r s4) := by
  have hstr : ipString (mapped4 p q r s4) =
      decByte p ++ 46 :: (decByte q ++ 46 :: (decByte r ++ 46 :: decByte s4)) := by
    unfold ipString
    rw [to4_mapped4]
    simp [List.append_assoc]
  rw [hstr]
  unfold parseIP
  rw [find?_v4_print p q r s4 hp]
  exact parseIPv4_quad p q r s4 hp hq hr hs

theorem hexDigitChar_lt (d : Nat) (h : d < 10) : hexDigitChar d = 48 + d := by
  unfold hexDigitChar
  rw [if_pos h]

theorem hexDigitChar_ge (d : Nat) (h : 10 ≤ d) : hexDigitChar d = 87 + d := by
  unfold hexDigitChar
  rw [if_neg (by omega)]

theorem hexVal_hexDigitChar (d : Nat) (hd : d < 16) : hexVal (hexDigitChar d) = d := by
  rcases Nat.lt_or_ge d 10 with h | h
  · rw [hexDigitChar_lt d h]
    unfold hexVal
    rw [if_pos (by omega)]
    omega
  · rw [hexDigitChar_ge d h]
    unfold hexVal
    rw [if_neg (by omega), if_neg (by omega)]
    omega

theorem isHexDigit_hexDigitChar (d : Nat) (hd : d < 16) :
    isHexDigit (hexDigitChar d) = true := by
  rcases Nat.lt_or_ge d 10 with h | h
  · rw [hexDigitChar_lt d h]
    simp only [isHexDigit, decide_eq_true_eq]
    omega
  · rw [hexDigitChar_ge d h]
    simp only [isHexDigit, decide_eq_true_eq]
    omega

theorem hexDigitChar_bounds (d : Nat) (hd : d < 16) :
    48 ≤ hexDigitChar d ∧ hexDigitChar d ≤ 102 ∧ hexDigitChar d ≠ 58 ∧
      hexDigitChar d ≠ 46 ∧ hexDigitChar d ≠ 37 := by
  rcases Nat.lt_or_ge d 10 with h | h
  · rw [hexDigitChar_lt d h]
    omega
  · rw [hexDigitChar_ge d h]
    omega

theorem hexU16_eq1 (g : Nat) (h : g < 16) : hexU16 g = [hexDigitChar g] := by
  unfold hexU16
  rw [if_neg (by omega), if_neg (by omega), if_neg (by omega), Nat.mod_eq_of_lt h]
  rfl

theorem hexU16_eq2 (g : Nat) (h1 : 16 ≤ g) (h2 : g < 256) :
    hexU16 g = [hexDigitChar (g / 16), hexDigitChar (g % 16)] := by
  unfold hexU16
  rw [if_neg (by omega), if_neg (by omega), if_pos h1,
    show g / 16 % 16 = g / 16 from Nat.mod_eq_of_lt (by omega)]
  rfl

theorem hexU16_eq3 (g : Nat) (h1 : 256 ≤ g) (h2 : g < 4096) :
    hexU16 g = [hexDigitChar (g / 256), hexDigitChar (g / 16 % 16),
      hexDigitChar (g % 16)] := by
  unfold hexU16
  rw [if_neg (by omega), if_pos h1, if_pos (by omega),
    show g / 256 % 16 = g / 256 from Nat.mod_eq_of_lt (by omega)]
  rfl

theorem hexU16_eq4 (g : Nat) (h1 : 4096 ≤ g) :
    hexU16 g = [hexDigitChar (g / 4096), hexDigitChar (g / 256 % 16),
      hexDigitChar (g / 16 % 16), hexDigitChar (g % 16)] := by
  unfold hexU16
  rw [if_pos h1, if_pos (by omega), if_pos (by omega)]
  rfl

theorem hexU16_mem (g : Nat) (hg : g ≤ 65535) :
    ∀ c ∈ hexU16 g, ∃ d, d < 16 ∧ c = hexDigitChar d := by
  rcases Nat.lt_or_ge g 16 with h | h
  · rw [hexU16_eq1 g h]
    intro c hc
    simp at hc
    exact ⟨g, h, hc⟩
  rcases Nat.lt_or_ge g 256 with h2 | h2
  · rw [hexU16_eq2 g h h2]
    intro c hc
    simp at hc
    rcases hc with hc | hc
    · exact ⟨g / 16, by omega, hc⟩
    · exact ⟨g % 16, by omega, hc⟩
  rcases Nat.lt_or_ge g 4096 with h3 | h3
  · rw [hexU16_eq3 g h2 h3]
    intro c hc
    simp at hc
    rcases hc with hc | hc | hc
    · exact ⟨g / 256, by omega, hc⟩
    · exact ⟨g / 16 % 16, by omega, hc⟩
    · exact ⟨g % 16, by omega, hc⟩
  · rw [hexU16_eq4 g h3]
    intro c hc
    simp at hc
    rcases hc with hc | hc | hc | hc
    · exact ⟨g / 4096, by omega, hc⟩
    · exact ⟨g / 256 % 16, by omega, hc⟩
    · exact ⟨g / 16 % 16, by omega, hc⟩
    · exact ⟨g % 16, by omega, hc⟩

theorem hexU16_ne_nil (g : Nat) : hexU16 g ≠ [] := by
  simp [hexU16]

theorem scanHex_cons_hex (c : Nat) (s : List Nat) (acc off : Nat)
    (h : isHexDigit c = true) :
    scanHex (c :: s) acc off = scanHex s (acc * 16 + hexVal c) (off + 1) := by
  simp [scanHex, h]

theorem scanHex_stop (rest : List Nat)
    (hrest : rest = [] ∨ ∃ c t, rest = c :: t ∧ isHexDigit c = false)
    (acc off : Nat) : scanHex rest acc off = (acc, off, rest) := by
  rcases hrest with h | ⟨c, t, h, hc⟩ <;> subst h
  · rfl
  · simp [scanHex, hc]

theorem scanHex_group (g : Nat) (hg : g ≤ 65535) (rest : List Nat)
    (hrest : rest = [] ∨ ∃ c t, rest = c :: t ∧ isHexDigit c = false) :
    ∃ off, 1 ≤ off ∧ off ≤ 4 ∧ scanHex (hexU16 g ++ rest) 0 0 = (g, off, rest) := by
  rcases Nat.lt_or_ge g 16 with h | h
  · refine ⟨1, by omega, by omega, ?_⟩
    rw [hexU16_eq1 g h, List.singleton_append,
      scanHex_cons_hex _ _ _ _ (isHexDigit_hexDigitChar g h),
      hexVal_hexDigitChar g h, scanHex_stop rest hrest]
    simp only [Prod.mk.injEq, and_true, eq_self_iff_true]
    omega
  rcases Nat.lt_or_ge g 256 with h2 | h2
  · refine ⟨2, by omega, by omega, ?_⟩
    rw [hexU16_eq2 g h h2, List.cons_append, List.singleton_append,
      scanHex_cons_hex _ _ _ _ (isHexDigit_hexDigitChar _ (by omega)),
      hexVal_hexDigitChar _ (by omega),
      scanHex_cons_hex _ _ _ _ (isHexDigit_hexDigitChar _ (by omega)),
      hexVal_hexDigitChar _ (by omega), scanHex_stop rest hrest]
    simp only [Prod.mk.injEq, and_true, eq_self_iff_true]
    omega
  rcases Nat.lt_or_ge g 4096 with h3 | h3
  · refine ⟨3, by omega, by omega, ?_⟩
    rw [hexU16_eq3 g h2 h3, List.cons_append, List.cons_append, List.singleton_append,
      scanHex_cons_hex _ _ _ _ (isHexDigit_hexDigitChar _ (by omega)),
      hexVal_hexDigitChar _ (by omega),
      scanHex_cons_hex _ _ _ _ (isHexDigit_hexDigitChar _ (by omega)),
      hexVal_hexDigitChar _ (by omega),
      scanHex_cons_hex _ _ _ _ (isHexDigit_hexDigitChar _ (by omega)),
      hexVal_hexDigitChar _ (by omega), scanHex_stop rest hrest]
    simp only [Prod.mk.injEq, and_true, eq_self_iff_true]
    omega
  · refine ⟨4, by omega, by omega, ?_⟩
    rw [hexU16_eq4 g h3, List.cons_append, List.cons_append, List.cons_append,
      List.singleton_append,
      scanHex_cons_hex _ _ _ _ (isHexDigit_hexDigitChar _ (by omega)),
      hexVal_hexDigitChar _ (by omega),
      scanHex_cons_hex _ _ _ _ (isHexDigit_hexDigitChar _ (by omega)),
      hexVal_hexDigitChar _ (by omega),
      scanHex_cons_hex _ _ _ _ (isHexDigit_hexDigitChar _ (by omega)),
      hexVal_hexDigitChar _ (by omega),
      scanHex_cons_hex _ _ _ _ (isHexDigit_hexDigitChar _ (by omega)),
      hexVal_hexDigitChar _ (by omega), scanHex_stop rest hrest]
    simp only [Prod.mk.injEq, and_true, eq_self_iff_true]
    omega

theorem fromGroups_append (x y : List Nat) :
    fromGroups (x ++ y) = fromGroups x ++ fromGroups y := by
  induction x with
  | nil => rfl
  | cons g t ih => simp [fromGroups, ih]

theorem fromGroups_length (x : List Nat) : (fromGroups x).length = 2 * x.length := by
  induction x with
  | nil => rfl
  | cons g t ih =>
    simp [fromGroups, ih]
    omega

theorem fromGroups_replicate (l : Nat) :
    fromGroups (List.replicate l 0) = List.replicate (2 * l) 0 := by
  induction l with
  | zero => rfl
  | succ n ih =>
    rw [List.replicate_succ, show 2 * (n + 1) = 2 * n + 1 + 1 by omega,
      List.replicate_succ, List.replicate_succ]
    simp [fromGroups, ih]

theorem fromGroups_toGroups : ∀ (a : List Nat), a.length % 2 = 0 →
    (∀ b ∈ a, b < 256) → fromGroups (toGroups a) = a
  | [], _, _ => rfl
  | [b], h, _ => by simp at h
  | b0 :: b1 :: t, h, hb => by
    have ih := fromGroups_toGroups t
      (by simp only [List.length_cons] at h ⊢; omega)
      (fun b hbm => hb b (by simp [hbm]))
    have hb1 : b1 < 256 := hb b1 (by simp)
    simp only [toGroups, fromGroups, ih]
    rw [show (b0 * 256 + b1) / 256 = b0 by omega, show (b0 * 256 + b1) % 256 = b1 by omega]

theorem toGroups_le (a : List Nat) (hb : ∀ b ∈ a, b < 256) :
    ∀ g ∈ toGroups a, g ≤ 65535 := by
  induction a using toGroups.induct with
  | case1 b0 b1 t ih =>
    intro g hg
    simp only [toGroups, List.mem_cons] at hg
    rcases hg with hg | hg
    · have h0 : b0 < 256 := hb b0 (by simp)
      have h1 : b1 < 256 := hb b1 (by simp)
      omega
    · exact ih (fun b hbm => hb b (by simp [hbm])) g hg
  | case2 t h =>
    intro g hg
    cases t with
    | nil => simp [toGroups] at hg
    | cons x t1 =>
      cases t1 with
      | nil => simp [toGroups] at hg
      | cons y t2 => exact absurd rfl (h x y t2)

theorem toGroups_length (a : List Nat) : (toGroups a).length = a.length / 2 := by
  induction a using toGroups.induct with
  | case1 b0 b1 t ih =>
    simp only [toGroups, List.length_cons, ih]
    omega
  | case2 t h =>
    cases t with
    | nil => rfl
    | cons x t1 =>
      cases t1 with
      | nil => simp [toGroups]
      | cons y t2 => exact absurd rfl (h x y t2)

theorem intercalateColon_cons (g : List Nat) (t : List (List Nat)) (ht : t ≠ []) :
    intercalateColon (g :: t) = g ++ 58 :: intercalateColon t := by
  cases t with
  | nil => exact absurd rfl ht
  | cons g2 t2 => rfl

theorem intercalateColon_head (gs : List Nat) (hne : gs ≠ [])
    (hb : ∀ g ∈ gs, g ≤ 65535) (x : List Nat) :
    ∃ c t, intercalateColon (gs.map hexU16) ++ x = c :: t ∧ isHexDigit c = true := by
  cases gs with
  | nil => exact absurd rfl hne
  | cons g t =>
    have hx : ∃ y, intercalateColon ((g :: t).map hexU16) ++ x = hexU16 g ++ y := by
      cases t with
      | nil => exact ⟨x, rfl⟩
      | cons g2 t2 =>
        refine ⟨58 :: intercalateColon ((g2 :: t2).map hexU16) ++ x, ?_⟩
        rw [List.map_cons, intercalateColon_cons _ _ (by simp)]
        simp [List.append_assoc]
    obtain ⟨y, hy⟩ := hx
    cases hhg : hexU16 g with
    | nil => exact absurd hhg (hexU16_ne_nil g)
    | cons c rest2 =>
      refine ⟨c, rest2 ++ y, by rw [hy, hhg]; simp, ?_⟩
      obtain ⟨d, hd, hcd⟩ := hexU16_mem g (hb g (by simp)) c (by rw [hhg]; simp)
      rw [hcd]
      exact isHexDigit_hexDigitChar d hd

theorem parseV6_step_last (fuel g : Nat) (hg : g ≤ 65535) (bytes : List Nat)
    (ell : Option Nat) (hlen : bytes.length < 16) :
    parseV6Loop (fuel + 1) (hexU16 g) bytes ell =
      some (bytes ++ [g / 256, g % 256], ell, []) := by
  obtain ⟨off, ho1, ho4, hscan⟩ := scanHex_group g hg [] (Or.inl rfl)
  rw [List.append_nil] at hscan
  rw [parseV6Loop, if_neg (by omega)]
  simp only [hscan]
  rw [if_neg (by omega), if_neg (by omega), if_neg (by simp), if_pos trivial]

theorem parseV6_step_cont (fuel g : Nat) (hg : g ≤ 65535) (c : Nat) (t : List Nat)
    (hc : isHexDigit c = true) (bytes : List Nat) (ell : Option Nat)
    (hlen : bytes.length < 16) :
    parseV6Loop (fuel + 1) (hexU16 g ++ 58 :: c :: t) bytes ell =
      parseV6Loop fuel (c :: t) (bytes ++ [g / 256, g % 256]) ell := by
  have hc58 : c ≠ 58 := by
    intro h
    rw [h] at hc
    simp [isHexDigit] at hc
  obtain ⟨off, ho1, ho4, hscan⟩ := scanHex_group g hg (58 :: c :: t)
    (Or.inr ⟨58, c :: t, rfl, by decide⟩)
  rw [parseV6Loop, if_neg (by omega)]
  simp only [hscan]
  rw [if_neg (by omega), if_neg (by omega)]
  simp only [List.head?_cons, List.tail_cons, List.length_cons]
  rw [if_neg (by simp), if_neg (by simp), if_neg (by simp), if_neg (by omega),
    if_neg (by simp [hc58])]

theorem parseV6_step_ell (fuel g : Nat) (hg : g ≤ 65535) (s2 : List Nat)
    (bytes : List Nat) (hlen : bytes.length < 16) :
    parseV6Loop (fuel + 1) (hexU16 g ++ 58 :: 58 :: s2) bytes none =
      (if s2 = [] then some (bytes ++ [g / 256, g % 256], some (bytes.length + 2), [])
       else parseV6Loop fuel s2 (bytes ++ [g / 256, g % 256])
         (some (bytes.length + 2))) := by
  obtain ⟨off, ho1, ho4, hscan⟩ := scanHex_group g hg (58 :: 58 :: s2)
    (Or.inr ⟨58, 58 :: s2, rfl, by decide⟩)
  rw [parseV6Loop, if_neg (by omega)]
  simp only [hscan]
  rw [if_neg (by omega), if_neg (by omega)]
  simp only [List.head?_cons, List.tail_cons, List.length_cons]
  rw [if_neg (by simp), if_neg (by simp), if_neg (by simp), if_neg (by omega),
    if_pos trivial, if_neg (by simp)]

theorem parseV6_run : ∀ (gs : List Nat), gs ≠ [] → (∀ g ∈ gs, g ≤ 65535) →
    ∀ (fuel : Nat) (bytes : List Nat) (ell : Option Nat),
      gs.length ≤ fuel → bytes.length + 2 * gs.length ≤ 16 →
      parseV6Loop fuel (intercalateColon (gs.map hexU16)) bytes ell =
        some (bytes ++ fromGroups gs, ell, []) := by
  intro gs
  induction gs with
  | nil => intro h; exact absurd rfl h
  | cons g t ih =>
    intro _ hb fuel bytes ell hfuel hlen
    simp only [List.length_cons] at hfuel hlen
    cases fuel with
    | zero => omega
    | succ f =>
      cases t with
      | nil =>
        simp only [List.map_cons, List.map_nil, intercalateColon]
        rw [parseV6_step_last f g (hb g (by simp)) bytes ell (by omega)]
        simp [fromGroups]
      | cons g2 t2 =>
        rw [List.map_cons, intercalateColon_cons _ _ (by simp)]
        obtain ⟨c, t', heq, hchex⟩ :=
          intercalateColon_head (g2 :: t2) (by simp) (fun x hx => hb x (by simp [hx])) []
        rw [List.append_nil] at heq
        rw [heq, parseV6_step_cont f g (hb g (by simp)) c t' hchex bytes ell (by omega),
          ← heq, ih (by simp) (fun x hx => hb x (by simp [hx])) f _ ell
            (by simp only [List.length_cons] at hfuel ⊢; omega)
            (by simp only [List.length_append, List.length_cons] at hlen ⊢; simp; omega)]
        simp [fromGroups, List.append_assoc]

theorem parseV6_run_ell : ∀ (gs : List Nat), gs ≠ [] → (∀ g ∈ gs, g ≤ 65535) →
    ∀ (fuel : Nat) (bytes : List Nat) (X : List Nat),
      gs.length ≤ fuel → bytes.length + 2 * gs.length ≤ 14 →
      parseV6Loop fuel (intercalateColon (gs.map hexU16) ++ 58 :: 58 :: X) bytes none =
        (if X = [] then
          some (bytes ++ fromGroups gs, some (bytes.length + 2 * gs.length), [])
        else parseV6Loop (fuel - gs.length) X (bytes ++ fromGroups gs)
          (some (bytes.length + 2 * gs.length))) := by
  intro gs
  induction gs with
  | nil => intro h; exact absurd rfl h
  | cons g t ih =>
    intro _ hb fuel bytes X hfuel hlen
    simp only [List.length_cons] at hfuel hlen
    cases fuel with
    | zero => omega
    | succ f =>
      cases t with
      | nil =>
        simp only [List.map_cons, List.map_nil, intercalateColon]
        rw [parseV6_step_ell f g (hb g (by simp)) X bytes (by omega)]
        norm_num [fromGroups]
      | cons g2 t2 =>
        rw [List.map_cons, intercalateColon_cons _ _ (by simp), List.append_assoc,
          List.cons_append]
        obtain ⟨c, t', heq, hchex⟩ :=
          intercalateColon_head (g2 :: t2) (by simp) (fun x hx => hb x (by simp [hx]))
            (58 :: 58 :: X)
        rw [heq, parseV6_step_cont f g (hb g (by simp)) c t' hchex bytes none (by omega),
          ← heq, ih (by simp) (fun x hx => hb x (by simp [hx])) f _ X
            (by simp only [List.length_cons] at hfuel ⊢; omega)
            (by simp only [List.length_append, List.length_cons] at hlen ⊢; simp; omega)]
        have hlen2 : (bytes ++ [g / 256, g % 256]).length + 2 * (g2 :: t2).length =
            bytes.length + 2 * (g2 :: t2).length.succ := by
          simp only [List.length_append, List.length_cons]
          simp
          omega
        have hfe : f - (g2 :: t2).length = f + 1 - ((g2 :: t2).length + 1) := by omega
        rw [hlen2, hfe]
        have hby : (bytes ++ [g / 256, g % 256]) ++ fromGroups (g2 :: t2) =
            bytes ++ fromGroups (g :: g2 :: t2) := by
          simp [fromGroups, List.append_assoc]
        rw [hby]
        simp only [List.length_cons, Nat.succ_eq_add_one]

theorem zeroRunLen_le : ∀ xs : List Nat, zeroRunLen xs ≤ xs.length
  | [] => by simp [zeroRunLen]
  | 0 :: t => by
    simp only [zeroRunLen, List.length_cons]
    have := zeroRunLen_le t
    omega
  | (n + 1) :: t => by simp [zeroRunLen]

theorem zeroRunLen_zeros : ∀ xs : List Nat,
    xs.take (zeroRunLen xs) = List.replicate (zeroRunLen xs) 0
  | [] => rfl
  | 0 :: t => by
    simp only [zeroRunLen, List.take_succ_cons, List.replicate_succ]
    rw [zeroRunLen_zeros t]
  | (n + 1) :: t => rfl

theorem bestZeroRunAux_spec : ∀ (l : List Nat) (i : Nat) (best : Option (Nat × Nat))
    (p r : Nat), bestZeroRunAux l i best = some (p, r) →
    best = some (p, r) ∨
      (i ≤ p ∧ p - i < l.length ∧ r = zeroRunLen (l.drop (p - i)) ∧ 2 ≤ r)
  | [], i, best, p, r => by
    intro h
    simp only [bestZeroRunAux] at h
    exact Or.inl h
  | g :: t, i, best, p, r => by
    intro h
    simp only [bestZeroRunAux] at h
    have hrec := bestZeroRunAux_spec t (i + 1) _ p r h
    rcases hrec with hbest | ⟨hip, hlt, hzr, h2r⟩
    · split at hbest
      · next hcond =>
        rw [Option.some_inj, Prod.mk.injEq] at hbest
        obtain ⟨hp, hr⟩ := hbest
        subst hp
        subst hr
        refine Or.inr ⟨le_refl i, by simp, ?_, hcond.1⟩
        simp
      · exact Or.inl hbest
    · refine Or.inr ⟨by omega, by simp only [List.length_cons]; omega, ?_, h2r⟩
      rw [hzr]
      have hd : t.drop (p - (i + 1)) = (g :: t).drop (p - i) := by
        have hpi : p - i = (p - (i + 1)) + 1 := by omega
        rw [hpi, List.drop_succ_cons]
      rw [hd]

theorem bestZeroRun_spec (gs : List Nat) (p r : Nat)
    (h : bestZeroRun gs = some (p, r)) :
    p + r ≤ gs.length ∧ 2 ≤ r ∧ (gs.drop p).take r = List.replicate r 0 := by
  have hrec := bestZeroRunAux_spec gs 0 none p r h
  rcases hrec with hbest | ⟨-, hlt, hzr, h2r⟩
  · exact absurd hbest (by simp)
  · have hle := zeroRunLen_le (gs.drop p)
    rw [List.length_drop] at hle
    simp only [Nat.sub_zero] at hlt hzr
    refine ⟨by omega, h2r, ?_⟩
    rw [hzr]
    exact zeroRunLen_zeros (gs.drop p)

theorem ipSpecial_hex_false (c : Nat) (hc : isHexDigit c = true) :
    (c == 46 || c == 58 || c == 37) = false := by
  simp only [isHexDigit, decide_eq_true_eq] at hc
  simp only [Bool.or_eq_false_iff, beq_eq_false_iff_ne, ne_eq]
  omega

theorem isHexDigit_ne_58 (c : Nat) (hc : isHexDigit c = true) : c ≠ 58 := by
  simp only [isHexDigit, decide_eq_true_eq] at hc
  omega

theorem find?_colon (s : List Nat)
    (hall : ∀ c ∈ s, (c == 46 || c == 58 || c == 37) = false ∨ c = 58)
    (hmem : 58 ∈ s) :
    List.find? (fun c => c == 46 || c == 58 || c == 37) s = some 58 := by
  induction s with
  | nil => simp at hmem
  | cons c t ih =>
    rcases hall c (by simp) with hf | h58
    · rw [List.find?_cons_of_neg _ (by simp [hf])]
      have hct : c ≠ 58 := by
        intro h
        rw [h] at hf
        simp at hf
      refine ih (fun x hx => hall x (by simp [hx])) ?_
      rcases List.mem_cons.mp hmem with h | h
      · exact absurd h.symm hct
      · exact h
    · subst h58
      rw [List.find?_cons_of_pos _ (by decide)]

theorem interca_chars (gs : List Nat) (hb : ∀ g ∈ gs, g ≤ 65535) :
    ∀ c ∈ intercalateColon (gs.map hexU16),
      (c == 46 || c == 58 || c == 37) = false ∨ c = 58 := by
  induction gs with
  | nil => simp [intercalateColon]
  | cons g t ih =>
    intro c hc
    have hmemg : ∀ x ∈ hexU16 g, (x == 46 || x == 58 || x == 37) = false := by
      intro x hx
      obtain ⟨d, hd, hxd⟩ := hexU16_mem g (hb g (by simp)) x hx
      exact ipSpecial_hex_false x (hxd ▸ isHexDigit_hexDigitChar d hd)
    cases t with
    | nil =>
      simp only [List.map_cons, List.map_nil, intercalateColon] at hc
      exact Or.inl (hmemg c hc)
    | cons g2 t2 =>
      rw [List.map_cons, intercalateColon_cons _ _ (by simp)] at hc
      rcases List.mem_append.mp hc with hc | hc
      · exact Or.inl (hmemg c hc)
      · rcases List.mem_cons.mp hc with hc | hc
        · exact Or.inr hc
        · exact ih (fun x hx => hb x (by simp [hx])) c hc

theorem intercalateColon_ne_nil (gs : List Nat) (hne : gs ≠ [])
    (hb : ∀ g ∈ gs, g ≤ 65535) : intercalateColon (gs.map hexU16) ≠ [] := by
  obtain ⟨c, t, heq, -⟩ := intercalateColon_head gs hne hb []
  rw [List.append_nil] at heq
  simp [heq]

theorem take2_ne (c : Nat) (t : List Nat) (hc : c ≠ 58) : (c :: t).take 2 ≠ [58, 58] := by
  intro h
  rw [show (2 : Nat) = 1 + 1 from rfl, List.take_succ_cons] at h
  exact hc (List.cons.inj h).1

theorem parseIPv6_cons_ne (c : Nat) (t : List Nat) (hc : c ≠ 58) :
    parseIPv6 (c :: t) =
      match parseV6Loop 8 (c :: t) [] none with
      | none => none
      | some (bytes, ell, rest) => v6Finish bytes ell rest := by
  unfold parseIPv6
  rw [if_neg (take2_ne c t hc)]

theorem roundtrip_v6 (a : List Nat) (hlen : a.length = 16) (hb : ∀ b ∈ a, b < 256)
    (h4 : to4 a = none) : parseIP (ipString a) = some a := by
  have hgl : (toGroups a).length = 8 := by rw [toGroups_length, hlen]
  have hgb := toGroups_le a hb
  have hfg : fromGroups (toGroups a) = a :=
    fromGroups_toGroups a (by rw [hlen]) hb
  have hstr : ipString a = v6String (toGroups a) := by
    unfold ipString
    rw [h4]
  rw [hstr]
  cases hbr : bestZeroRun (toGroups a) with
  | none =>
    have hv : v6String (toGroups a) = intercalateColon ((toGroups a).map hexU16) := by
      unfold v6String
      rw [hbr]
    rw [hv]
    have hne : toGroups a ≠ [] := by
      intro h
      rw [h] at hgl
      simp at hgl
    obtain ⟨g1, g2, t2, hsh⟩ : ∃ g1 g2 t2, toGroups a = g1 :: g2 :: t2 := by
      cases hgg : toGroups a with
      | nil => rw [hgg] at hgl; simp at hgl
      | cons x t =>
        cases hgt : t with
        | nil => rw [hgg, hgt] at hgl; simp at hgl
        | cons y t2 => exact ⟨x, y, t2, rfl⟩
    unfold parseIP
    have hfind : List.find? (fun c => c == 46 || c == 58 || c == 37)
        (intercalateColon ((toGroups a).map hexU16)) = some 58 := by
      apply find?_colon _ (interca_chars (toGroups a) hgb)
      rw [hsh, List.map_cons, intercalateColon_cons _ _ (by simp)]
      exact List.mem_append.mpr (Or.inr (by simp))
    rw [hfind]
    obtain ⟨c, t', heq, hchex⟩ := intercalateColon_head (toGroups a) hne hgb []
    rw [List.append_nil] at heq
    rw [heq, parseIPv6_cons_ne c t' (isHexDigit_ne_58 c hchex), ← heq,
      parseV6_run (toGroups a) hne hgb 8 [] none (by omega) (by simp [hgl])]
    show v6Finish ([] ++ fromGroups (toGroups a)) none [] = some a
    simp only [List.nil_append]
    unfold v6Finish
    rw [if_neg (by simp), if_neg (by rw [fromGroups_length, hgl]; omega)]
    simp only [Option.isSome_none, Bool.false_eq_true, if_false, hfg]
  | some pr =>
    obtain ⟨p, l⟩ := pr
    obtain ⟨hpl, h2l, hzeros⟩ := bestZeroRun_spec (toGroups a) p l hbr
    rw [hgl] at hpl
    have hv : v6String (toGroups a) =
        intercalateColon (((toGroups a).take p).map hexU16) ++ 58 :: 58 ::
          intercalateColon (((toGroups a).drop (p + l)).map hexU16) := by
      unfold v6String
      rw [hbr]
    rw [hv]
    have hdd : ((toGroups a).drop p).drop l = (toGroups a).drop (p + l) := by
      rw [List.drop_drop]
    have h1 : (toGroups a).take p ++ (List.replicate l 0 ++ (toGroups a).drop (p + l)) =
        toGroups a := by
      rw [← hdd, ← hzeros, List.take_append_drop, List.take_append_drop]
    have hadecomp : a = fromGroups ((toGroups a).take p) ++
        (List.replicate (2 * l) 0 ++ fromGroups ((toGroups a).drop (p + l))) := by
      conv_lhs => rw [← hfg]
      conv_lhs => rw [← h1]
      rw [fromGroups_append, fromGroups_append, fromGroups_replicate]
    have hpre_len : ((toGroups a).take p).length = p := by
      rw [List.length_take, hgl]
      omega
    have hpost_len : ((toGroups a).drop (p + l)).length = 8 - (p + l) := by
      rw [List.length_drop, hgl]
    have hpre_fg_len : (fromGroups ((toGroups a).take p)).length = 2 * p := by
      rw [fromGroups_length, hpre_len]
    have hpostb : ∀ g ∈ (toGroups a).drop (p + l), g ≤ 65535 :=
      fun x hx => hgb x (List.drop_subset _ _ hx)
    rcases Nat.eq_zero_or_pos p with hp0 | hp1
    · -- leading "::"
      subst hp0
      simp only [Nat.zero_add] at hadecomp hpost_len hpostb ⊢
      simp only [List.take_zero, List.map_nil, fromGroups, List.nil_append]
        at hadecomp ⊢
      rw [show intercalateColon ([] : List (List Nat)) = [] from rfl, List.nil_append]
      unfold parseIP
      rw [List.find?_cons_of_pos _ (by decide)]
      show parseIPv6 (58 :: 58 ::
        intercalateColon (((toGroups a).drop l).map hexU16)) = some a
      unfold parseIPv6
      rw [if_pos (show (58 :: 58 ::
        intercalateColon (((toGroups a).drop l).map hexU16)).take 2 = [58, 58] from rfl)]
      rw [show (58 :: 58 ::
        intercalateColon (((toGroups a).drop l).map hexU16)).drop 2 =
        intercalateColon (((toGroups a).drop l).map hexU16) from rfl]
      by_cases hpost : (toGroups a).drop l = []
      · have hl8 : l = 8 := by
          rw [hpost] at hpost_len
          simp at hpost_len
          omega
        rw [hpost]
        simp only [List.map_nil]
        rw [show intercalateColon ([] : List (List Nat)) = [] from rfl, if_pos rfl]
        rw [hadecomp, hpost]
        simp only [fromGroups, List.append_nil]
        rw [hl8]
      · have hX : intercalateColon (((toGroups a).drop l).map hexU16) ≠ [] :=
          intercalateColon_ne_nil _ hpost hpostb
        rw [if_neg hX,
          parseV6_run ((toGroups a).drop l) hpost hpostb 8 [] (some 0)
            (by rw [hpost_len]; omega) (by rw [hpost_len]; simp; omega)]
        show v6Finish ([] ++ fromGroups ((toGroups a).drop l)) (some 0) [] = some a
        simp only [List.nil_append]
        unfold v6Finish
        rw [if_neg (by simp), if_pos (by rw [fromGroups_length, hpost_len]; omega)]
        simp only [List.take_zero, List.drop_zero, List.nil_append, Option.some_inj]
        rw [fromGroups_length, hpost_len, show 16 - 2 * (8 - l) = 2 * l by omega]
        conv_rhs => rw [hadecomp]
    · -- groups before the "::"
      have hprene : (toGroups a).take p ≠ [] := by
        intro h
        rw [h] at hpre_len
        simp at hpre_len
        omega
      have hpreb : ∀ g ∈ (toGroups a).take p, g ≤ 65535 :=
        fun x hx => hgb x (List.take_subset _ _ hx)
      unfold parseIP
      have hfind : List.find? (fun c => c == 46 || c == 58 || c == 37)
          (intercalateColon (((toGroups a).take p).map hexU16) ++ 58 :: 58 ::
            intercalateColon (((toGroups a).drop (p + l)).map hexU16)) = some 58 := by
        apply find?_colon
        · intro c hc
          rcases List.mem_append.mp hc with hc | hc
          · exact interca_chars _ hpreb c hc
          · rcases List.mem_cons.mp hc with hc | hc
            · exact Or.inr hc
            · rcases List.mem_cons.mp hc with hc | hc
              · exact Or.inr hc
              · exact interca_chars _ hpostb c hc
        · exact List.mem_append.mpr (Or.inr (by simp))
      rw [hfind]
      obtain ⟨c, t', heq, hchex⟩ := intercalateColon_head ((toGroups a).take p) hprene
        hpreb (58 :: 58 :: intercalateColon (((toGroups a).drop (p + l)).map hexU16))
      rw [heq, parseIPv6_cons_ne c t' (isHexDigit_ne_58 c hchex), ← heq,
        parseV6_run_ell ((toGroups a).take p) hprene hpreb 8 []
          (intercalateColon (((toGroups a).drop (p + l)).map hexU16))
          (by rw [hpre_len]; omega) (by rw [hpre_len]; simp; omega)]
      simp only [List.nil_append, List.length_nil, Nat.zero_add, hpre_len]
      by_cases hpost : (toGroups a).drop (p + l) = []
      · have hl8 : p + l = 8 := by
          rw [hpost] at hpost_len
          simp at hpost_len
          omega
        rw [hpost]
        simp only [List.map_nil]
        rw [show intercalateColon ([] : List (List Nat)) = [] from rfl, if_pos rfl]
        show v6Finish (fromGroups ((toGroups a).take p)) (some (2 * p)) [] = some a
        unfold v6Finish
        rw [if_neg (by simp), if_pos (by rw [hpre_fg_len]; omega)]
        simp only [Option.some_inj]
        rw [List.take_of_length_le (by rw [hpre_fg_len]),
          List.drop_of_length_le (by rw [hpre_fg_len]), hpre_fg_len,
          List.append_nil, show 16 - 2 * p = 2 * l by omega]
        conv_rhs => rw [hadecomp, hpost]
        simp only [fromGroups, List.append_nil]
      · have hX : intercalateColon (((toGroups a).drop (p + l)).map hexU16) ≠ [] :=
          intercalateColon_ne_nil _ hpost hpostb
        rw [if_neg hX,
          parseV6_run ((toGroups a).drop (p + l)) hpost hpostb (8 - p)
            (fromGroups ((toGroups a).take p)) (some (2 * p))
            (by rw [hpost_len]; omega)
            (by rw [hpre_fg_len, hpost_len]; omega)]
        show v6Finish (fromGroups ((toGroups a).take p) ++
          fromGroups ((toGroups a).drop (p + l))) (some (2 * p)) [] = some a
        unfold v6Finish
        rw [if_neg (by simp),
          if_pos (by
            rw [List.length_append, hpre_fg_len, fromGroups_length, hpost_len]
            omega)]
        simp only [Option.some_inj]
        rw [List.take_left' hpre_fg_len, List.drop_left' hpre_fg_len,
          List.length_append, hpre_fg_len, fromGroups_length, hpost_len,
          show 16 - (2 * p + 2 * (8 - (p + l))) = 2 * l by omega, List.append_assoc]
        conv_rhs => rw [hadecomp]

theorem list_eq4 (l : List Nat) (hl : l.length = 4) : ∃ w x y z, l = [w, x, y, z] := by
  cases l with
  | nil => simp at hl
  | cons w l1 =>
    cases l1 with
    | nil => simp at hl
    | cons x l2 =>
      cases l2 with
      | nil => simp at hl
      | cons y l3 =>
        cases l3 with
        | nil => simp at hl
        | cons z l4 =>
          cases l4 with
          | nil => exact ⟨w, x, y, z, rfl⟩
          | cons u l5 =>
            simp only [List.length_cons, List.length_nil] at hl
            omega

theorem to4_eq_some (a : List Nat) (p q r s4 : Nat) (h : to4 a = some (p, q, r, s4)) :
    a = mapped4 p q r s4 := by
  unfold to4 at h
  split at h
  · next hcond =>
    obtain ⟨hlen, htake⟩ := hcond
    obtain ⟨w, x, y, z, hwxyz⟩ :=
      list_eq4 (a.drop 12) (by rw [List.length_drop, hlen])
    have ha : a = [0, 0, 0, 0, 0, 0, 0, 0, 0, 0, 255, 255] ++ [w, x, y, z] := by
      conv_lhs => rw [← List.take_append_drop 12 a]
      rw [htake, hwxyz]
    rw [Option.some_inj, Prod.mk.injEq, Prod.mk.injEq, Prod.mk.injEq] at h
    obtain ⟨h1, h2, h3, h4⟩ := h
    rw [ha] at h1 h2 h3 h4
    have hw : w = p := h1
    have hx : x = q := h2
    have hy : y = r := h3
    have hz : z = s4 := h4
    rw [ha, hw, hx, hy, hz]
    rfl
  · exact absurd h (by simp)

theorem parseV4Loop_bound : ∀ (s : List Nat) (val digLen : Nat) (fields out : List Nat),
    parseV4Loop s val digLen fields = some out → val ≤ 255 →
    (∀ x ∈ fields, x ≤ 255) → ∀ x ∈ out, x ≤ 255
  | [], val, digLen, fields, out => by
    intro h hv hf
    simp only [parseV4Loop] at h
    split at h
    · exact absurd h (by simp)
    · rw [Option.some_inj] at h
      subst h
      intro x hx
      rcases List.mem_append.mp hx with hx | hx
      · exact hf x hx
      · simp at hx
        omega
  | c :: s, val, digLen, fields, out => by
    intro h hv hf
    simp only [parseV4Loop] at h
    split at h
    · split at h
      · exact absurd h (by simp)
      · split at h
        · exact absurd h (by simp)
        · next h255 => exact parseV4Loop_bound s _ _ fields out h (by omega) hf
    · split at h
      · split at h
        · exact absurd h (by simp)
        · split at h
          · exact absurd h (by simp)
          · refine parseV4Loop_bound s 0 0 (fields ++ [val]) out h (by omega) ?_
            intro x hx
            rcases List.mem_append.mp hx with hx | hx
            · exact hf x hx
            · simp at hx
              omega
      · exact absurd h (by simp)

theorem mapped4_bound (p q r s4 : Nat)
    (hp : p ≤ 255) (hq : q ≤ 255) (hr : r ≤ 255) (hs : s4 ≤ 255) :
    ∀ b ∈ mapped4 p q r s4, b < 256 := by
  intro b hbm
  simp only [mapped4, List.mem_cons, List.not_mem_nil, or_false] at hbm
  omega

theorem parseIPv4_valid (s a : List Nat) (h : parseIPv4 s = some a) :
    a.length = 16 ∧ ∀ b ∈ a, b < 256 := by
  unfold parseIPv4 at h
  split at h
  · next p q r s4 heq =>
    rw [Option.some_inj] at h
    subst h
    have hb := parseV4Loop_bound s 0 0 [] _ heq (by omega) (by simp)
    exact ⟨rfl, mapped4_bound p q r s4 (hb p (by simp)) (hb q (by simp))
      (hb r (by simp)) (hb s4 (by simp))⟩
  · exact absurd h (by simp)

theorem hexVal_lt (c : Nat) (hc : isHexDigit c = true) : hexVal c < 16 := by
  simp only [isHexDigit, decide_eq_true_eq] at hc
  unfold hexVal
  split
  · omega
  · split
    · omega
    · omega

theorem scanHex_bound : ∀ (s : List Nat) (acc off acc2 off2 : Nat) (rest : List Nat),
    scanHex s acc off = (acc2, off2, rest) →
    acc2 < (acc + 1) * 16 ^ (off2 - off) ∧ off ≤ off2
  | [], acc, off, acc2, off2, rest => by
    intro h
    simp only [scanHex, Prod.mk.injEq] at h
    obtain ⟨h1, h2, -⟩ := h
    subst h1
    subst h2
    simp
  | c :: s, acc, off, acc2, off2, rest => by
    intro h
    simp only [scanHex] at h
    split at h
    · next hhex =>
      obtain ⟨hb, hoff⟩ := scanHex_bound s (acc * 16 + hexVal c) (off + 1) acc2 off2 rest h
      have hhv : hexVal c < 16 := hexVal_lt c hhex
      constructor
      · have hk : off2 - off = (off2 - (off + 1)) + 1 := by omega
        rw [hk, pow_succ]
        calc acc2 < (acc * 16 + hexVal c + 1) * 16 ^ (off2 - (off + 1)) := hb
          _ ≤ ((acc + 1) * 16) * 16 ^ (off2 - (off + 1)) :=
              Nat.mul_le_mul_right _ (by omega)
          _ = (acc + 1) * (16 ^ (off2 - (off + 1)) * 16) := by ring
      · omega
    · simp only [Prod.mk.injEq] at h
      obtain ⟨h1, h2, -⟩ := h
      subst h1
      subst h2
      simp

set_option maxHeartbeats 1600000 in
theorem parseV6Loop_valid : ∀ (fuel : Nat) (s bytes : List Nat) (ell : Option Nat)
    (out : List Nat × Option Nat × List Nat),
    parseV6Loop fuel s bytes ell = some out →
    (∀ b ∈ bytes, b < 256) → bytes.length ≤ 16 → bytes.length % 2 = 0 →
    (∀ e, ell = some e → e ≤ bytes.length) →
    (∀ b ∈ out.1, b < 256) ∧ out.1.length ≤ 16 ∧ out.1.length % 2 = 0 ∧
      (∀ e, out.2.1 = some e → e ≤ out.1.length)
  | 0, s, bytes, ell, out => by
    intro h hb hlen hev hell
    rw [parseV6Loop] at h
    split at h
    · rw [Option.some_inj] at h
      subst h
      exact ⟨hb, hlen, hev, hell⟩
    · exact absurd h (by simp)
  | fuel + 1, s, bytes, ell, out => by
    intro h hb hlen hev hell
    rw [parseV6Loop] at h
    split at h
    · rw [Option.some_inj] at h
      subst h
      exact ⟨hb, hlen, hev, hell⟩
    · next hguard =>
      rcases hscan : scanHex s 0 0 with ⟨acc, off, rest⟩
      simp only [hscan] at h
      split at h
      · exact absurd h (by simp)
      · split at h
        · exact absurd h (by simp)
        · next hoff4 =>
          have hacc : acc < 65536 := by
            obtain ⟨hbnd, -⟩ := scanHex_bound s 0 0 acc off rest hscan
            simp only [Nat.zero_add, Nat.one_mul, Nat.sub_zero] at hbnd
            calc acc < 16 ^ off := hbnd
              _ ≤ 16 ^ 4 := Nat.pow_le_pow_right (by omega) (by omega)
              _ = 65536 := by norm_num
          split at h
          · -- embedded IPv4
            split at h
            · exact absurd h (by simp)
            · split at h
              · exact absurd h (by simp)
              · next hsz =>
                split at h
                · next p q r s4 heq =>
                  rw [Option.some_inj] at h
                  subst h
                  have hf := parseV4Loop_bound s 0 0 [] _ heq (by omega) (by simp)
                  refine ⟨?_, ?_, ?_, ?_⟩
                  · intro b hbm
                    rcases List.mem_append.mp hbm with hbm | hbm
                    · exact hb b hbm
                    · simp only [List.mem_cons, List.not_mem_nil, or_false] at hbm
                      have h1 := hf p (by simp)
                      have h2 := hf q (by simp)
                      have h3 := hf r (by simp)
                      have h4 := hf s4 (by simp)
                      omega
                  · simp only [List.length_append, List.length_cons, List.length_nil]
                    omega
                  · simp only [List.length_append, List.length_cons, List.length_nil]
                    omega
                  · intro e he
                    have := hell e he
                    simp only [List.length_append]
                    omega
                · exact absurd h (by simp)
          · split at h
            · -- end of string after a group
              rw [Option.some_inj] at h
              subst h
              refine ⟨?_, ?_, ?_, ?_⟩
              · intro b hbm
                rcases List.mem_append.mp hbm with hbm | hbm
                · exact hb b hbm
                · simp only [List.mem_cons, List.not_mem_nil, or_false] at hbm
                  have := Nat.div_lt_of_lt_mul (show acc < 256 * 256 by omega)
                  have := Nat.mod_lt acc (show 0 < 256 by omega)
                  omega
              · simp only [List.length_append, List.length_cons, List.length_nil]
                omega
              · simp only [List.length_append, List.length_cons, List.length_nil]
                omega
              · intro e he
                have := hell e he
                simp only [List.length_append]
                omega
            · split at h
              · exact absurd h (by simp)
              · split at h
                · exact absurd h (by simp)
                · have hb2 : ∀ b ∈ bytes ++ [acc / 256, acc % 256], b < 256 := by
                    intro b hbm
                    rcases List.mem_append.mp hbm with hbm | hbm
                    · exact hb b hbm
                    · simp only [List.mem_cons, List.not_mem_nil, or_false] at hbm
                      have := Nat.div_lt_of_lt_mul (show acc < 256 * 256 by omega)
                      have := Nat.mod_lt acc (show 0 < 256 by omega)
                      omega
                  have hl2 : (bytes ++ [acc / 256, acc % 256]).length ≤ 16 := by
                    simp only [List.length_append, List.length_cons, List.length_nil]
                    omega
                  have he2 : (bytes ++ [acc / 256, acc % 256]).length % 2 = 0 := by
                    simp only [List.length_append, List.length_cons, List.length_nil]
                    omega
                  split at h
                  · split at h
                    · exact absurd h (by simp)
                    · split at h
                      · rw [Option.some_inj] at h
                        subst h
                        refine ⟨hb2, hl2, he2, ?_⟩
                        intro e he
                        rw [Option.some_inj] at he
                        subst he
                        simp only [List.length_append, List.length_cons, List.length_nil]
                        omega
                      · refine parseV6Loop_valid fuel _ _ _ out h hb2 hl2 he2 ?_
                        intro e he
                        rw [Option.some_inj] at he
                        subst he
                        simp only [List.length_append, List.length_cons, List.length_nil]
                        omega
                  · refine parseV6Loop_valid fuel _ _ _ out h hb2 hl2 he2 ?_
                    intro e he
                    have := hell e he
                    simp only [List.length_append]
                    omega

theorem v6Finish_valid (bytes : List Nat) (ell : Option Nat) (rest : List Nat)
    (a : List Nat) (h : v6Finish bytes ell rest = some a)
    (hb : ∀ b ∈ bytes, b < 256) (hlen : bytes.length ≤ 16)
    (hell : ∀ e, ell = some e → e ≤ bytes.length) :
    a.length = 16 ∧ ∀ b ∈ a, b < 256 := by
  cases ell with
  | none =>
    unfold v6Finish at h
    split at h
    · exact absurd h (by simp)
    · split at h
      · exact absurd h (by simp)
      · split at h
        · exact absurd h (by simp)
        · next hge =>
          rw [Option.some_inj] at h
          subst h
          exact ⟨by omega, hb⟩
  | some e =>
    have hee : e ≤ bytes.length := hell e rfl
    unfold v6Finish at h
    split at h
    · exact absurd h (by simp)
    · split at h
      · next hlt =>
        have h2 : bytes.take e ++ List.replicate (16 - bytes.length) 0 ++
            bytes.drop e = a := Option.some_inj.mp h
        subst h2
        constructor
        · simp only [List.length_append, List.length_take, List.length_replicate,
            List.length_drop]
          omega
        · intro b hbm
          rcases List.mem_append.mp hbm with hbm | hbm
          · rcases List.mem_append.mp hbm with hbm | hbm
            · exact hb b (List.take_subset _ _ hbm)
            · rw [List.eq_of_mem_replicate hbm]
              omega
          · exact hb b (List.drop_subset _ _ hbm)
      · split at h
        · exact absurd h (by simp)
        · rw [Option.some_inj] at h
          subst h
          exact ⟨by omega, hb⟩

theorem parseIPv6_valid (s a : List Nat) (h : parseIPv6 s = some a) :
    a.length = 16 ∧ ∀ b ∈ a, b < 256 := by
  unfold parseIPv6 at h
  split at h
  · split at h
    · rw [Option.some_inj] at h
      subst h
      refine ⟨by simp, ?_⟩
      intro b hbm
      rw [List.eq_of_mem_replicate hbm]
      omega
    · split at h
      · exact absurd h (by simp)
      · next bytes ell rest heq =>
        obtain ⟨h1, h2, -, h4⟩ := parseV6Loop_valid 8 _ [] (some 0) _ heq
          (by simp) (by simp) (by simp) (by simp)
        exact v6Finish_valid bytes ell rest a h h1 h2 h4
  · split at h
    · exact absurd h (by simp)
    · next bytes ell rest heq =>
      obtain ⟨h1, h2, -, h4⟩ := parseV6Loop_valid 8 _ [] none _ heq
        (by simp) (by simp) (by simp) (by simp)
      exact v6Finish_valid bytes ell rest a h h1 h2 h4

theorem parseIP_valid (s a : List Nat) (h : parseIP s = some a) :
    a.length = 16 ∧ ∀ b ∈ a, b < 256 := by
  unfold parseIP at h
  split at h
  · exact parseIPv4_valid s a h
  · exact parseIPv6_valid s a h
  · exact absurd h (by simp)

theorem ip_roundtrip (a : List Nat) (hlen : a.length = 16) (hb : ∀ b ∈ a, b < 256) :
    parseIP (ipString a) = some a := by
  cases h4 : to4 a with
  | some x =>
    obtain ⟨p, q, r, s4⟩ := x
    have ha := to4_eq_some a p q r s4 h4
    subst ha
    have hp : p < 256 := hb p (by simp [mapped4])
    have hq : q < 256 := hb q (by simp [mapped4])
    have hr : r < 256 := hb r (by simp [mapped4])
    have hs : s4 < 256 := hb s4 (by simp [mapped4])
    exact roundtrip_v4 p q r s4 (by omega) (by omega) (by omega) (by omega)
  | none => exact roundtrip_v6 a hlen hb h4

/-- Claim C10: every address string `getIP` returns on success is canonical —
re-parsing it as an IP succeeds and re-rendering the parsed value yields the
identical string (normalization is idempotent). -/
theorem claim_c10_theorem (body out : GoStr) (h : getIP (.ok body) = .ok out) :
    ∃ a, parseIP out = some a ∧ ipString a = out := by
  unfold getIP at h
  have h2 : (match parseIP (trimSuffixNewline body) with
      | none => Except.error GetIPError.invalidAddress
      | some ip => Except.ok (ipString ip)) = Except.ok out := h
  cases hp : parseIP (trimSuffixNewline body) with
  | none =>
    rw [hp] at h2
    exact absurd h2 (by simp)
  | some a0 =>
    rw [hp] at h2
    have hout : ipString a0 = out := Except.ok.inj h2
    obtain ⟨hl, hb⟩ := parseIP_valid _ a0 hp
    refine ⟨a0, ?_, hout⟩
    rw [← hout]
    exact ip_roundtrip a0 hl hb

/-- Witness for C10: uppercase, uncompressed-adjacent IPv6 input is returned
canonical, and the canonical output reparses and reprints to itself. -/
theorem claim_c10_witness :
    ∃ a, parseIP (str "2001:db8::1") = some a ∧
      ipString a = str "2001:db8::1" :=
  claim_c10_theorem (str "2001:DB8::1\n") (str "2001:db8::1") (by rfl)

end R53
